import Mathlib

/-!
# Verification of the planning-poker room/voting core

Shallow embedding of the in-memory room/voting state machine of
`src/server.js` (the `Room` class, the room registry, the socket event
handlers and the `getRoomData` broadcast serializer), together with
theorems settling the specification claims about it.

JavaScript `Map` objects are embedded as association lists with
JS `Map` semantics: `set` overwrites the entry in place when the key is
present and appends otherwise, `delete` removes the entry, iteration
follows insertion order.
-/

/-- JS `Map.get`: value of the first entry with the given key. -/
def mapGet {α : Type} (m : List (String × α)) (k : String) : Option α :=
  (m.find? (fun p => p.1 = k)).map (fun p => p.2)

/-- JS `Map.has`. -/
def mapHas {α : Type} (m : List (String × α)) (k : String) : Bool :=
  m.any (fun p => p.1 = k)

/-- JS `Map.set`: overwrite in place when the key is present, append otherwise. -/
def mapSet {α : Type} : List (String × α) → String → α → List (String × α)
  | [], k, v => [(k, v)]
  | p :: rest, k, v => if p.1 = k then (k, v) :: rest else p :: mapSet rest k v

/-- JS `Map.delete` (ignoring the returned boolean). -/
def mapDelete {α : Type} (m : List (String × α)) (k : String) : List (String × α) :=
  m.filter (fun p => p.1 ≠ k)

/-- A room member, as built by `Room.addUser` in `server.js`. -/
structure User where
  id : String
  name : String
  isSpectator : Bool
deriving DecidableEq, Repr

/-- The fixed card deck `cardValues` of `server.js`. -/
def cardValues : List String :=
  ["0", "½", "1", "2", "3", "5", "8", "13", "21", "34", "55", "89", "?", "☕"]

/-- The `Room` class of `server.js` (the informational `createdAt`
timestamp is dropped: no claim mentions it and no operation reads it). -/
structure Room where
  id : String
  name : String
  users : List (String × User)
  currentStory : String
  votes : List (String × String)
  votingRevealed : Bool
deriving DecidableEq, Repr

/-- The `Room` constructor. -/
def Room.create (id name : String) : Room :=
  ⟨id, name, [], "", [], false⟩

/-- Embedding of `Room.addUser`. -/
def Room.addUser (r : Room) (socketId userName : String) : Room :=
  { r with users := mapSet r.users socketId ⟨socketId, userName, false⟩ }

/-- Embedding of `Room.removeUser`. -/
def Room.removeUser (r : Room) (socketId : String) : Room :=
  { r with users := mapDelete r.users socketId,
           votes := mapDelete r.votes socketId }

/-- Embedding of `Room.castVote`: records the vote only for current non-spectator members. -/
def Room.castVote (r : Room) (socketId vote : String) : Room :=
  match mapGet r.users socketId with
  | some u => if u.isSpectator then r else { r with votes := mapSet r.votes socketId vote }
  | none => r

/-- Embedding of `Room.clearVotes`. -/
def Room.clearVotes (r : Room) : Room :=
  { r with votes := [], votingRevealed := false }

/-- Embedding of `Room.revealVotes`. -/
def Room.revealVotes (r : Room) : Room :=
  { r with votingRevealed := true }

/-- Model of JavaScript `parseInt(s)` (radix 10): skip leading spaces,
read an optional sign, then the maximal run of decimal digits; the result
is `NaN` (here `none`) when that run is empty. -/
def jsParseInt (s : String) : Option Int :=
  let cs := s.data.dropWhile (fun c => c = ' ')
  let core : List Char → Option Nat := fun ds =>
    match ds.takeWhile (fun c => '0' ≤ c ∧ c ≤ '9') with
    | [] => none
    | digits => some (digits.foldl (fun a c => 10 * a + (c.toNat - 48)) 0)
  match cs with
  | '-' :: rest => (core rest).map (fun n => -(n : Int))
  | '+' :: rest => (core rest).map (fun n => (n : Int))
  | _ => (core cs).map (fun n => (n : Int))

/-- Embedding of `[...].sort((a, b) => a - b)`: ascending stable sort of integers,
modelled as insertion sort. -/
def sortInts (l : List Int) : List Int :=
  List.insertionSort (fun a b => a ≤ b) l

/-- Embedding of `Math.min(...)` over a list (meaningful on nonempty input). -/
def listMin : List Int → Int
  | [] => 0
  | x :: xs => xs.foldl min x

/-- Embedding of `Math.max(...)` over a list (meaningful on nonempty input). -/
def listMax : List Int → Int
  | [] => 0
  | x :: xs => xs.foldl max x

/-- Embedding of `Math.round` on a rational: nearest integer, halves toward positive
infinity (JS semantics). -/
def mathRound (x : ℚ) : Int :=
  ⌊x + 1 / 2⌋

/-- The statistics object returned by `Room.getVotingStats`.
Numbers are modelled as exact rationals. -/
structure VotingStats where
  average : ℚ
  median : ℚ
  min : Int
  max : Int
  totalVotes : Nat
deriving DecidableEq, Repr

/-- The local `votes` of `getVotingStats`: vote values with the two
sentinel tokens filtered out. -/
def Room.sentinelFreeVotes (r : Room) : List String :=
  (r.votes.map (fun p => p.2)).filter (fun v => v ≠ "?" ∧ v ≠ "☕")

/-- The local `numericVotes` of `getVotingStats`:
`votes.map(v => parseInt(v)).filter(v => !isNaN(v))`. -/
def Room.numericVotes (r : Room) : List Int :=
  r.sentinelFreeVotes.filterMap jsParseInt

/-- The local `average` of `getVotingStats` before rounding:
`numericVotes.reduce((a, b) => a + b, 0) / numericVotes.length`. -/
def meanQ (l : List Int) : ℚ :=
  (l.map (fun v => (v : ℚ))).sum / l.length

/-- The local `median` of `getVotingStats`, computed over the sorted
copy of the numeric votes. -/
def medianQ (l : List Int) : ℚ :=
  let sortedVotes := sortInts l
  if sortedVotes.length % 2 = 0 then
    ((sortedVotes.getD (sortedVotes.length / 2 - 1) 0 : ℚ)
      + (sortedVotes.getD (sortedVotes.length / 2) 0 : ℚ)) / 2
  else (sortedVotes.getD (sortedVotes.length / 2) 0 : ℚ)

/-- Embedding of `Room.getVotingStats`, line by line from `server.js`. -/
def Room.getVotingStats (r : Room) : Option VotingStats :=
  if r.numericVotes.length = 0 then none
  else
    some ⟨(mathRound (meanQ r.numericVotes * 10) : ℚ) / 10,
          medianQ r.numericVotes,
          listMin r.numericVotes, listMax r.numericVotes, r.votes.length⟩

/-- The room snapshot shape produced by `getRoomData` in `server.js`. -/
structure RoomData where
  id : String
  name : String
  users : List User
  currentStory : String
  votes : List (String × String)
  votingRevealed : Bool
  cardValues : List String
deriving DecidableEq, Repr

/-- Embedding of `getRoomData`: serializes a room for broadcast, masking vote values
with the placeholder while `votingRevealed` is false. -/
def getRoomData (r : Room) : RoomData :=
  ⟨r.id, r.name, r.users.map (fun p => p.2), r.currentStory,
   if r.votingRevealed then r.votes
   else r.votes.map (fun p => (p.1, "***")),
   r.votingRevealed, cardValues⟩

/-- Destination of an emitted event: a single socket (`socket.emit`) or a
room broadcast channel (`io.to(roomId).emit`, which reaches every member
of the room including the sender). -/
inductive Target where
  | socket (sid : String)
  | channel (roomId : String)
deriving DecidableEq, Repr

/-- One emitted socket event, with the payload pieces the claims are
about: the room snapshot (when the event carries one), the error message
(for `error` events) and the stats payload (for `votes-revealed`). -/
structure Emission where
  target : Target
  event : String
  room : Option RoomData
  message : Option String
  stats : Option (Option VotingStats)
deriving DecidableEq, Repr

/-- The inbound client events the socket handlers in `server.js` react to.
For `create-room` the output of `uuidv4().substring(0, 8)` is a parameter
so claims quantify over every possible generator output. -/
inductive Event where
  | createRoom (sid genId roomName userName : String)
  | joinRoom (sid roomId userName : String)
  | setStory (sid story : String)
  | castVote (sid vote : String)
  | revealVotes (sid : String)
  | clearVotes (sid : String)
  | disconnect (sid : String)
deriving DecidableEq, Repr

/-- The server's in-memory registry: the module-level `rooms` map. -/
structure ServerState where
  rooms : List (String × Room)
deriving DecidableEq, Repr

/-- Embedding of `getUserRoom`: first room (in registry iteration order) whose
membership contains the connection. -/
def getUserRoom (s : ServerState) (sid : String) : Option Room :=
  (s.rooms.find? (fun p => mapHas p.2.users sid)).map (fun p => p.2)

/-- One handler dispatch: the state after the event together with the
list of emissions, transcribed handler by handler from `server.js`
(audit logging is a fire-and-forget external side effect and is not
modelled). -/
def stepE (s : ServerState) (e : Event) : ServerState × List Emission :=
  match e with
  | .createRoom sid genId roomName userName =>
      let room := (Room.create genId roomName).addUser sid userName
      (⟨mapSet s.rooms genId room⟩,
       [⟨.socket sid, "room-created", some (getRoomData room), none, none⟩])
  | .joinRoom sid roomId userName =>
      match mapGet s.rooms roomId with
      | none => (s, [⟨.socket sid, "error", none, some "Room not found", none⟩])
      | some room =>
          let room := room.addUser sid userName
          (⟨mapSet s.rooms roomId room⟩,
           [⟨.socket sid, "room-joined", some (getRoomData room), none, none⟩,
            ⟨.channel roomId, "user-joined", some (getRoomData room), none, none⟩])
  | .setStory sid story =>
      match getUserRoom s sid with
      | none => (s, [])
      | some room =>
          let room := { room with currentStory := story }.clearVotes
          (⟨mapSet s.rooms room.id room⟩,
           [⟨.channel room.id, "story-updated", some (getRoomData room), none, none⟩])
  | .castVote sid vote =>
      match getUserRoom s sid with
      | none => (s, [])
      | some room =>
          let room := room.castVote sid vote
          (⟨mapSet s.rooms room.id room⟩,
           [⟨.channel room.id, "vote-cast", some (getRoomData room), none, none⟩])
  | .revealVotes sid =>
      match getUserRoom s sid with
      | none => (s, [])
      | some room =>
          let stats := room.getVotingStats
          let room := room.revealVotes
          (⟨mapSet s.rooms room.id room⟩,
           [⟨.channel room.id, "votes-revealed", some (getRoomData room), none, some stats⟩])
  | .clearVotes sid =>
      match getUserRoom s sid with
      | none => (s, [])
      | some room =>
          let room := room.clearVotes
          (⟨mapSet s.rooms room.id room⟩,
           [⟨.channel room.id, "votes-cleared", some (getRoomData room), none, none⟩])
  | .disconnect sid =>
      match getUserRoom s sid with
      | none => (s, [])
      | some room =>
          let room := room.removeUser sid
          if room.users.length = 0 then
            (⟨mapDelete s.rooms room.id⟩, [])
          else
            (⟨mapSet s.rooms room.id room⟩,
             [⟨.channel room.id, "user-left", some (getRoomData room), none, none⟩])

/-- The state transition alone. -/
def step (s : ServerState) (e : Event) : ServerState :=
  (stepE s e).1

/-- The empty registry the server starts with. -/
def initialState : ServerState := ⟨[]⟩

/-- States reachable from server start by any sequence of client events. -/
inductive Reachable : ServerState → Prop where
  | init : Reachable initialState
  | next (s : ServerState) (e : Event) : Reachable s → Reachable (step s e)

/-! ## Association-list lemmas -/

theorem mapHas_iff {α : Type} (m : List (String × α)) (k : String) :
    mapHas m k = true ↔ ∃ v, (k, v) ∈ m := by
  simp only [mapHas, List.any_eq_true, decide_eq_true_eq]
  constructor
  · rintro ⟨⟨a, b⟩, hm, rfl⟩
    exact ⟨b, hm⟩
  · rintro ⟨v, hv⟩
    exact ⟨(k, v), hv, rfl⟩

theorem mapGet_some_mem {α : Type} {m : List (String × α)} {k : String} {v : α}
    (h : mapGet m k = some v) : (k, v) ∈ m := by
  simp only [mapGet, Option.map_eq_some'] at h
  obtain ⟨p, hp, rfl⟩ := h
  have hmem := List.mem_of_find?_eq_some hp
  have hk := List.find?_some hp
  simp only [decide_eq_true_eq] at hk
  have : p = (k, p.2) := by
    cases p
    simp_all
  rwa [this] at hmem

theorem mem_mapSet {α : Type} {m : List (String × α)} {k : String} {v : α} {p : String × α}
    (h : p ∈ mapSet m k v) : p = (k, v) ∨ p ∈ m := by
  induction m with
  | nil => simpa [mapSet] using h
  | cons q rest ih =>
    by_cases hq : q.1 = k
    · simp only [mapSet, if_pos hq, List.mem_cons] at h
      rcases h with h | h
      · exact Or.inl h
      · exact Or.inr (List.mem_cons_of_mem q h)
    · simp only [mapSet, if_neg hq, List.mem_cons] at h
      rcases h with h | h
      · exact Or.inr (h ▸ List.mem_cons_self q rest)
      · rcases ih h with h | h
        · exact Or.inl h
        · exact Or.inr (List.mem_cons_of_mem q h)

theorem mem_mapSet_of_ne {α : Type} {m : List (String × α)} {k : String} {v : α}
    {p : String × α} (hp : p ∈ m) (hne : p.1 ≠ k) : p ∈ mapSet m k v := by
  induction m with
  | nil => cases hp
  | cons q rest ih =>
    by_cases hq : q.1 = k
    · simp only [mapSet, if_pos hq, List.mem_cons]
      rcases List.mem_cons.mp hp with rfl | h
      · exact absurd hq hne
      · exact Or.inr h
    · simp only [mapSet, if_neg hq, List.mem_cons]
      rcases List.mem_cons.mp hp with rfl | h
      · exact Or.inl rfl
      · exact Or.inr (ih h)

theorem mapHas_mapSet_self {α : Type} (m : List (String × α)) (k : String) (v : α) :
    mapHas (mapSet m k v) k = true := by
  rw [mapHas_iff]
  induction m with
  | nil => exact ⟨v, by simp [mapSet]⟩
  | cons q rest ih =>
    by_cases hq : q.1 = k
    · exact ⟨v, by simp [mapSet, if_pos hq]⟩
    · obtain ⟨w, hw⟩ := ih
      exact ⟨w, by simp [mapSet, if_neg hq, hw]⟩

theorem mapHas_mapSet_of {α : Type} {m : List (String × α)} {k' : String}
    (k : String) (v : α) (h : mapHas m k' = true) : mapHas (mapSet m k v) k' = true := by
  by_cases hk : k' = k
  · subst hk
    exact mapHas_mapSet_self m k' v
  · rw [mapHas_iff] at h ⊢
    obtain ⟨w, hw⟩ := h
    exact ⟨w, mem_mapSet_of_ne hw hk⟩

theorem mapHas_of_mapSet {α : Type} {m : List (String × α)} {k k' : String} {v : α}
    (h : mapHas (mapSet m k v) k' = true) : k' = k ∨ mapHas m k' = true := by
  rw [mapHas_iff] at h
  obtain ⟨w, hw⟩ := h
  rcases mem_mapSet hw with h | h
  · exact Or.inl (congrArg Prod.fst h)
  · exact Or.inr ((mapHas_iff m k').mpr ⟨w, h⟩)

theorem mem_mapDelete {α : Type} {m : List (String × α)} {k : String} {p : String × α}
    (h : p ∈ mapDelete m k) : p ∈ m :=
  List.mem_of_mem_filter h

theorem mapHas_mapDelete_of {α : Type} {m : List (String × α)} {k k' : String}
    (hne : k' ≠ k) (h : mapHas m k' = true) : mapHas (mapDelete m k) k' = true := by
  rw [mapHas_iff] at h ⊢
  obtain ⟨w, hw⟩ := h
  exact ⟨w, List.mem_filter.mpr ⟨hw, by simpa using hne⟩⟩

theorem mapHas_of_mapDelete {α : Type} {m : List (String × α)} {k k' : String}
    (h : mapHas (mapDelete m k) k' = true) : mapHas m k' = true ∧ k' ≠ k := by
  rw [mapHas_iff] at h
  obtain ⟨w, hw⟩ := h
  have hmem := List.mem_of_mem_filter hw
  have hne := List.of_mem_filter hw
  simp only [decide_eq_true_eq] at hne
  exact ⟨(mapHas_iff m k').mpr ⟨w, hmem⟩, by simpa using hne⟩

theorem mapGet_mapSet_self {α : Type} (m : List (String × α)) (k : String) (v : α) :
    mapGet (mapSet m k v) k = some v := by
  induction m with
  | nil => simp [mapSet, mapGet]
  | cons q rest ih =>
    by_cases hq : q.1 = k
    · simp [mapSet, if_pos hq, mapGet]
    · simp only [mapSet, if_neg hq]
      rw [mapGet, List.find?_cons_of_neg _ (by simpa using hq)]
      simpa [mapGet] using ih

theorem mapSet_length_of_has {α : Type} {m : List (String × α)} {k : String} (v : α)
    (h : mapHas m k = true) : (mapSet m k v).length = m.length := by
  induction m with
  | nil => simp [mapHas] at h
  | cons q rest ih =>
    by_cases hq : q.1 = k
    · simp [mapSet, if_pos hq]
    · simp only [mapHas, List.any_cons, Bool.or_eq_true, decide_eq_true_eq] at h
      rcases h with h | h
      · exact absurd h hq
      · simp [mapSet, if_neg hq, ih h]

theorem mapSet_length_of_not_has {α : Type} {m : List (String × α)} {k : String} (v : α)
    (h : mapHas m k = false) : (mapSet m k v).length = m.length + 1 := by
  induction m with
  | nil => simp [mapSet]
  | cons q rest ih =>
    simp only [mapHas, List.any_cons, Bool.or_eq_false_iff, decide_eq_false_iff_not] at h
    simp [mapSet, if_neg h.1, ih (by simpa [mapHas] using h.2)]

/-! ## Room and registry invariants -/

/-- Every voter key is a member key. -/
def VotesSubUsers (r : Room) : Prop :=
  ∀ k, mapHas r.votes k = true → mapHas r.users k = true

/-- Every registered member has `isSpectator = false`. -/
def NoSpectators (r : Room) : Prop :=
  ∀ p ∈ r.users, p.2.isSpectator = false

/-- The conjunction of the room invariants the claims are about. -/
def GoodRoom (r : Room) : Prop :=
  VotesSubUsers r ∧ NoSpectators r

/-- All registered rooms satisfy the room invariants. -/
def GoodState (s : ServerState) : Prop :=
  ∀ p ∈ s.rooms, GoodRoom p.2

theorem goodRoom_addUser {r : Room} (h : GoodRoom r) (sid userName : String) :
    GoodRoom (r.addUser sid userName) := by
  obtain ⟨hv, hs⟩ := h
  constructor
  · intro k hk
    exact mapHas_mapSet_of sid _ (hv k hk)
  · intro p hp
    rcases mem_mapSet hp with rfl | hp
    · rfl
    · exact hs p hp

theorem goodRoom_removeUser {r : Room} (h : GoodRoom r) (sid : String) :
    GoodRoom (r.removeUser sid) := by
  obtain ⟨hv, hs⟩ := h
  constructor
  · intro k hk
    obtain ⟨hk, hne⟩ := mapHas_of_mapDelete hk
    exact mapHas_mapDelete_of hne (hv k hk)
  · intro p hp
    exact hs p (mem_mapDelete hp)

theorem goodRoom_castVote {r : Room} (h : GoodRoom r) (sid vote : String) :
    GoodRoom (r.castVote sid vote) := by
  obtain ⟨hv, hs⟩ := h
  rw [Room.castVote]
  cases hu : mapGet r.users sid with
  | none => exact ⟨hv, hs⟩
  | some u =>
    by_cases hspec : u.isSpectator
    · simp only [if_pos hspec]
      exact ⟨hv, hs⟩
    · simp only [if_neg hspec]
      constructor
      · intro k hk
        rcases mapHas_of_mapSet hk with rfl | hk
        · exact (mapHas_iff r.users k).mpr ⟨u, mapGet_some_mem hu⟩
        · exact hv k hk
      · exact hs

theorem goodRoom_clearVotes {r : Room} (h : GoodRoom r) : GoodRoom r.clearVotes := by
  obtain ⟨hv, hs⟩ := h
  exact ⟨fun k hk => by simp [Room.clearVotes, mapHas] at hk, hs⟩

theorem goodRoom_revealVotes {r : Room} (h : GoodRoom r) : GoodRoom r.revealVotes := h

theorem goodRoom_setStory {r : Room} (h : GoodRoom r) (story : String) :
    GoodRoom ({ r with currentStory := story }).clearVotes :=
  goodRoom_clearVotes ⟨fun k hk => h.1 k hk, fun p hp => h.2 p hp⟩

theorem goodRoom_newRoom (genId roomName sid userName : String) :
    GoodRoom ((Room.create genId roomName).addUser sid userName) :=
  goodRoom_addUser ⟨fun k hk => by simp [Room.create, mapHas] at hk,
                    fun p hp => by simp [Room.create] at hp⟩ sid userName

theorem getUserRoom_mem {s : ServerState} {sid : String} {r : Room}
    (h : getUserRoom s sid = some r) : ∃ k, (k, r) ∈ s.rooms := by
  simp only [getUserRoom, Option.map_eq_some'] at h
  obtain ⟨p, hp, rfl⟩ := h
  exact ⟨p.1, List.mem_of_find?_eq_some hp⟩

theorem getUserRoom_has {s : ServerState} {sid : String} {r : Room}
    (h : getUserRoom s sid = some r) : mapHas r.users sid = true := by
  simp only [getUserRoom, Option.map_eq_some'] at h
  obtain ⟨p, hp, rfl⟩ := h
  simpa using List.find?_some hp

theorem goodState_mapSet {s : ServerState} {r : Room} (k : String)
    (h : GoodState s) (hr : GoodRoom r) : GoodState ⟨mapSet s.rooms k r⟩ := by
  intro p hp
  rcases mem_mapSet hp with rfl | hp
  · exact hr
  · exact h p hp

theorem goodState_step (s : ServerState) (e : Event) (h : GoodState s) :
    GoodState (step s e) := by
  cases e with
  | createRoom sid genId roomName userName =>
    exact goodState_mapSet genId h (goodRoom_newRoom genId roomName sid userName)
  | joinRoom sid roomId userName =>
    rw [step, stepE]
    cases hm : mapGet s.rooms roomId with
    | none => exact h
    | some room =>
      exact goodState_mapSet roomId h
        (goodRoom_addUser (h (roomId, room) (mapGet_some_mem hm)) sid userName)
  | setStory sid story =>
    rw [step, stepE]
    cases hm : getUserRoom s sid with
    | none => exact h
    | some room =>
      obtain ⟨k, hk⟩ := getUserRoom_mem hm
      exact goodState_mapSet _ h (goodRoom_setStory (h (k, room) hk) story)
  | castVote sid vote =>
    rw [step, stepE]
    cases hm : getUserRoom s sid with
    | none => exact h
    | some room =>
      obtain ⟨k, hk⟩ := getUserRoom_mem hm
      exact goodState_mapSet _ h (goodRoom_castVote (h (k, room) hk) sid vote)
  | revealVotes sid =>
    rw [step, stepE]
    cases hm : getUserRoom s sid with
    | none => exact h
    | some room =>
      obtain ⟨k, hk⟩ := getUserRoom_mem hm
      exact goodState_mapSet _ h (goodRoom_revealVotes (h (k, room) hk))
  | clearVotes sid =>
    rw [step, stepE]
    cases hm : getUserRoom s sid with
    | none => exact h
    | some room =>
      obtain ⟨k, hk⟩ := getUserRoom_mem hm
      exact goodState_mapSet _ h (goodRoom_clearVotes (h (k, room) hk))
  | disconnect sid =>
    rw [step, stepE]
    cases hm : getUserRoom s sid with
    | none => exact h
    | some room =>
      obtain ⟨k, hk⟩ := getUserRoom_mem hm
      by_cases hz : (room.removeUser sid).users.length = 0
      · simp only [if_pos hz]
        exact fun p hp => h p (mem_mapDelete hp)
      · simp only [if_neg hz]
        exact goodState_mapSet _ h (goodRoom_removeUser (h (k, room) hk) sid)

theorem goodState_reachable {s : ServerState} (h : Reachable s) : GoodState s := by
  induction h with
  | init => intro p hp; cases hp
  | next s e _ ih => exact goodState_step s e ih

/-! ## Per-operation preservation of the vote-subset invariant -/

theorem votesSub_create (genId roomName : String) : VotesSubUsers (Room.create genId roomName) :=
  fun k hk => by simp [Room.create, mapHas] at hk

theorem votesSub_addUser {r : Room} (h : VotesSubUsers r) (sid userName : String) :
    VotesSubUsers (r.addUser sid userName) :=
  fun k hk => mapHas_mapSet_of sid _ (h k hk)

theorem votesSub_removeUser {r : Room} (h : VotesSubUsers r) (sid : String) :
    VotesSubUsers (r.removeUser sid) := by
  intro k hk
  obtain ⟨hk, hne⟩ := mapHas_of_mapDelete hk
  exact mapHas_mapDelete_of hne (h k hk)

theorem votesSub_castVote {r : Room} (h : VotesSubUsers r) (sid vote : String) :
    VotesSubUsers (r.castVote sid vote) := by
  rw [Room.castVote]
  cases hu : mapGet r.users sid with
  | none => exact h
  | some u =>
    by_cases hspec : u.isSpectator
    · simpa [if_pos hspec] using h
    · simp only [if_neg hspec]
      intro k hk
      rcases mapHas_of_mapSet hk with rfl | hk
      · exact (mapHas_iff r.users k).mpr ⟨u, mapGet_some_mem hu⟩
      · exact h k hk

theorem votesSub_clearVotes (r : Room) : VotesSubUsers r.clearVotes :=
  fun k hk => by simp [Room.clearVotes, mapHas] at hk

theorem votesSub_revealVotes {r : Room} (h : VotesSubUsers r) : VotesSubUsers r.revealVotes := h

/-! ## Minimum / maximum of an integer list -/

theorem foldl_min_mem (xs : List Int) (a : Int) : xs.foldl min a ∈ a :: xs := by
  induction xs generalizing a with
  | nil => simp
  | cons y ys ih =>
    rw [List.foldl_cons]
    rcases List.mem_cons.mp (ih (min a y)) with h | h
    · rcases min_choice a y with hm | hm
      · rw [h, hm]
        exact List.mem_cons_self _ _
      · rw [h, hm]
        exact List.mem_cons_of_mem _ (List.mem_cons_self _ _)
    · exact List.mem_cons_of_mem _ (List.mem_cons_of_mem _ h)

theorem foldl_min_le (xs : List Int) (a : Int) :
    xs.foldl min a ≤ a ∧ ∀ x ∈ xs, xs.foldl min a ≤ x := by
  induction xs generalizing a with
  | nil => exact ⟨le_refl a, by simp⟩
  | cons y ys ih =>
    rw [List.foldl_cons]
    obtain ⟨h1, h2⟩ := ih (min a y)
    refine ⟨le_trans h1 (min_le_left a y), ?_⟩
    intro x hx
    rcases List.mem_cons.mp hx with rfl | hx
    · exact le_trans h1 (min_le_right a x)
    · exact h2 x hx

theorem foldl_max_mem (xs : List Int) (a : Int) : xs.foldl max a ∈ a :: xs := by
  induction xs generalizing a with
  | nil => simp
  | cons y ys ih =>
    rw [List.foldl_cons]
    rcases List.mem_cons.mp (ih (max a y)) with h | h
    · rcases max_choice a y with hm | hm
      · rw [h, hm]
        exact List.mem_cons_self _ _
      · rw [h, hm]
        exact List.mem_cons_of_mem _ (List.mem_cons_self _ _)
    · exact List.mem_cons_of_mem _ (List.mem_cons_of_mem _ h)

theorem foldl_max_le (xs : List Int) (a : Int) :
    a ≤ xs.foldl max a ∧ ∀ x ∈ xs, x ≤ xs.foldl max a := by
  induction xs generalizing a with
  | nil => exact ⟨le_refl a, by simp⟩
  | cons y ys ih =>
    rw [List.foldl_cons]
    obtain ⟨h1, h2⟩ := ih (max a y)
    refine ⟨le_trans (le_max_left a y) h1, ?_⟩
    intro x hx
    rcases List.mem_cons.mp hx with rfl | hx
    · exact le_trans (le_max_right a x) h1
    · exact h2 x hx

theorem listMin_mem {l : List Int} (hl : l ≠ []) : listMin l ∈ l := by
  cases l with
  | nil => exact absurd rfl hl
  | cons x xs => exact foldl_min_mem xs x

theorem listMin_le {l : List Int} (x : Int) (hx : x ∈ l) : listMin l ≤ x := by
  cases l with
  | nil => cases hx
  | cons y ys =>
    rcases List.mem_cons.mp hx with rfl | hx
    · exact (foldl_min_le ys x).1
    · exact (foldl_min_le ys y).2 x hx

theorem listMax_mem {l : List Int} (hl : l ≠ []) : listMax l ∈ l := by
  cases l with
  | nil => exact absurd rfl hl
  | cons x xs => exact foldl_max_mem xs x

theorem le_listMax {l : List Int} (x : Int) (hx : x ∈ l) : x ≤ listMax l := by
  cases l with
  | nil => cases hx
  | cons y ys =>
    rcases List.mem_cons.mp hx with rfl | hx
    · exact (foldl_max_le ys x).1
    · exact (foldl_max_le ys y).2 x hx

/-! ## Rounding -/

theorem mathRound_close (y : ℚ) : |(mathRound y : ℚ) - y| ≤ 1 / 2 := by
  rw [mathRound, abs_le]
  have h1 : ((⌊y + 1 / 2⌋ : Int) : ℚ) ≤ y + 1 / 2 := Int.floor_le _
  have h2 : y + 1 / 2 < (⌊y + 1 / 2⌋ : Int) + 1 := Int.lt_floor_add_one _
  constructor <;> linarith

theorem rounded_mean_close (l : List Int) :
    |(mathRound (meanQ l * 10) : ℚ) / 10 - meanQ l| ≤ 1 / 20 := by
  have h := mathRound_close (meanQ l * 10)
  rw [abs_le] at h ⊢
  constructor <;> linarith [h.1, h.2]

/-- Modelled from the spec: the standard sorted-middle median — the
middle element of the sorted numeric votes for an odd count, the mean of
the two central elements for an even count. -/
def specMedian (l : List Int) : ℚ :=
  let sorted := sortInts l
  if sorted.length % 2 = 1 then (sorted.getD ((sorted.length - 1) / 2) 0 : ℚ)
  else ((sorted.getD (sorted.length / 2 - 1) 0 : ℚ)
         + (sorted.getD (sorted.length / 2) 0 : ℚ)) / 2

theorem medianQ_eq_specMedian (l : List Int) : medianQ l = specMedian l := by
  rw [medianQ, specMedian]
  by_cases h : (sortInts l).length % 2 = 0
  · rw [if_pos h, if_neg (by omega)]
  · rw [if_neg h, if_pos (by omega)]
    have : ((sortInts l).length - 1) / 2 = (sortInts l).length / 2 := by omega
    rw [this]

theorem sortInts_sorted (l : List Int) :
    List.Sorted (fun a b => a ≤ b) (sortInts l) :=
  List.sorted_insertionSort _ l

theorem sortInts_perm (l : List Int) : List.Perm (sortInts l) l :=
  List.perm_insertionSort _ l

/-! ## What the handlers emit -/

theorem stepE_snapshot {s : ServerState} {e : Event} {em : Emission}
    (hm : em ∈ (stepE s e).2) {rd : RoomData} (hrd : em.room = some rd) :
    ∃ q : Room, rd = getRoomData q := by
  cases e with
  | createRoom sid genId roomName userName =>
    simp only [stepE, List.mem_singleton] at hm
    subst hm
    exact ⟨_, (Option.some.inj hrd).symm⟩
  | joinRoom sid roomId userName =>
    rw [stepE] at hm
    cases hg : mapGet s.rooms roomId with
    | none =>
      rw [hg] at hm
      simp only [List.mem_singleton] at hm
      subst hm
      simp at hrd
    | some room =>
      rw [hg] at hm
      simp only [List.mem_cons, List.not_mem_nil, or_false] at hm
      rcases hm with rfl | rfl <;> exact ⟨_, (Option.some.inj hrd).symm⟩
  | setStory sid story =>
    rw [stepE] at hm
    cases hg : getUserRoom s sid with
    | none => rw [hg] at hm; simp at hm
    | some room =>
      rw [hg] at hm
      simp only [List.mem_singleton] at hm
      subst hm
      exact ⟨_, (Option.some.inj hrd).symm⟩
  | castVote sid vote =>
    rw [stepE] at hm
    cases hg : getUserRoom s sid with
    | none => rw [hg] at hm; simp at hm
    | some room =>
      rw [hg] at hm
      simp only [List.mem_singleton] at hm
      subst hm
      exact ⟨_, (Option.some.inj hrd).symm⟩
  | revealVotes sid =>
    rw [stepE] at hm
    cases hg : getUserRoom s sid with
    | none => rw [hg] at hm; simp at hm
    | some room =>
      rw [hg] at hm
      simp only [List.mem_singleton] at hm
      subst hm
      exact ⟨_, (Option.some.inj hrd).symm⟩
  | clearVotes sid =>
    rw [stepE] at hm
    cases hg : getUserRoom s sid with
    | none => rw [hg] at hm; simp at hm
    | some room =>
      rw [hg] at hm
      simp only [List.mem_singleton] at hm
      subst hm
      exact ⟨_, (Option.some.inj hrd).symm⟩
  | disconnect sid =>
    rw [stepE] at hm
    cases hg : getUserRoom s sid with
    | none => rw [hg] at hm; simp at hm
    | some room =>
      rw [hg] at hm
      by_cases hz : (room.removeUser sid).users.length = 0
      · simp [hz] at hm
      · simp only [hz, if_false, ite_false, List.mem_singleton, if_neg hz] at hm
        subst hm
        exact ⟨_, (Option.some.inj hrd).symm⟩

theorem stepE_error_events {s : ServerState} {e : Event} {em : Emission}
    (hm : em ∈ (stepE s e).2) (he : em.event = "error") :
    em.message = some "Room not found"
    ∧ ∃ sid rid un, e = Event.joinRoom sid rid un ∧ mapGet s.rooms rid = none
        ∧ em.target = Target.socket sid := by
  cases e with
  | createRoom sid genId roomName userName =>
    simp only [stepE, List.mem_singleton] at hm
    subst hm
    simp at he
  | joinRoom sid roomId userName =>
    rw [stepE] at hm
    cases hg : mapGet s.rooms roomId with
    | none =>
      rw [hg] at hm
      simp only [List.mem_singleton] at hm
      subst hm
      exact ⟨rfl, sid, roomId, userName, rfl, hg, rfl⟩
    | some room =>
      rw [hg] at hm
      simp only [List.mem_cons, List.not_mem_nil, or_false] at hm
      rcases hm with rfl | rfl <;> simp at he
  | setStory sid story =>
    rw [stepE] at hm
    cases hg : getUserRoom s sid with
    | none => rw [hg] at hm; simp at hm
    | some room =>
      rw [hg] at hm
      simp only [List.mem_singleton] at hm
      subst hm
      simp at he
  | castVote sid vote =>
    rw [stepE] at hm
    cases hg : getUserRoom s sid with
    | none => rw [hg] at hm; simp at hm
    | some room =>
      rw [hg] at hm
      simp only [List.mem_singleton] at hm
      subst hm
      simp at he
  | revealVotes sid =>
    rw [stepE] at hm
    cases hg : getUserRoom s sid with
    | none => rw [hg] at hm; simp at hm
    | some room =>
      rw [hg] at hm
      simp only [List.mem_singleton] at hm
      subst hm
      simp at he
  | clearVotes sid =>
    rw [stepE] at hm
    cases hg : getUserRoom s sid with
    | none => rw [hg] at hm; simp at hm
    | some room =>
      rw [hg] at hm
      simp only [List.mem_singleton] at hm
      subst hm
      simp at he
  | disconnect sid =>
    rw [stepE] at hm
    cases hg : getUserRoom s sid with
    | none => rw [hg] at hm; simp at hm
    | some room =>
      rw [hg] at hm
      by_cases hz : (room.removeUser sid).users.length = 0
      · simp [hz] at hm
      · simp only [hz, if_false, ite_false, List.mem_singleton, if_neg hz] at hm
        subst hm
        simp at he

/-! ## Concrete example states -/

/-- Registry after Alice creates room `r1`. -/
def sAlice : ServerState :=
  step initialState (Event.createRoom "s1" "r1" "Sprint 1" "Alice")

/-- Registry state after Alice casts the vote `5`. -/
def sVoted : ServerState :=
  step sAlice (Event.castVote "s1" "5")

/-- Registry state after the votes are revealed. -/
def sRevealed : ServerState :=
  step sVoted (Event.revealVotes "s1")

/-- Registry state after Alice casts an arbitrary client-sent token. -/
def sBanana : ServerState :=
  step sAlice (Event.castVote "s1" "banana")

/-- The room stored in `sVoted`. -/
def roomV : Room :=
  ⟨"r1", "Sprint 1", [("s1", ⟨"s1", "Alice", false⟩)], "", [("s1", "5")], false⟩

theorem reachable_sAlice : Reachable sAlice :=
  Reachable.next initialState _ Reachable.init

theorem reachable_sVoted : Reachable sVoted :=
  Reachable.next sAlice _ reachable_sAlice

theorem reachable_sRevealed : Reachable sRevealed :=
  Reachable.next sVoted _ reachable_sVoted

theorem reachable_sBanana : Reachable sBanana :=
  Reachable.next sAlice _ reachable_sAlice

/-! ## Claims -/

/-- C1: for every room with `votingRevealed = false` the broadcast
snapshot maps every voted connection to the placeholder `***` (which is
not a deck token) while keeping exactly the vote map's key set; with
`votingRevealed = true` it maps each key to the stored token; and every
room snapshot on any broadcast path of any handler is produced by
`getRoomData`, including the `vote-cast` broadcast that reaches the
voter. -/
theorem claim1_vote_masking (r : Room) (s : ServerState) (e : Event)
    (em : Emission) (rd : RoomData)
    (hm : em ∈ (stepE s e).2) (hrd : em.room = some rd) :
    (getRoomData r).votes.map Prod.fst = r.votes.map Prod.fst
    ∧ (r.votingRevealed = false →
        (getRoomData r).votes = r.votes.map (fun p => (p.1, "***")))
    ∧ (r.votingRevealed = true → (getRoomData r).votes = r.votes)
    ∧ "***" ∉ cardValues
    ∧ (∃ q : Room, rd = getRoomData q) := by
  refine ⟨?_, ?_, ?_, by decide, stepE_snapshot hm hrd⟩
  · cases hr : r.votingRevealed <;>
      simp [getRoomData, hr, List.map_map, Function.comp]
  · intro h
    simp [getRoomData, h]
  · intro h
    simp [getRoomData, h]

/-- C1 witness: the `vote-cast` broadcast after Alice votes `5` carries
the masked snapshot. -/
theorem claim1_witness :
    (getRoomData roomV).votes.map Prod.fst = roomV.votes.map Prod.fst
    ∧ (roomV.votingRevealed = false →
        (getRoomData roomV).votes = roomV.votes.map (fun p => (p.1, "***")))
    ∧ (roomV.votingRevealed = true → (getRoomData roomV).votes = roomV.votes)
    ∧ "***" ∉ cardValues
    ∧ (∃ q : Room, getRoomData roomV = getRoomData q) :=
  claim1_vote_masking roomV sAlice (Event.castVote "s1" "5")
    ⟨Target.channel "r1", "vote-cast", some (getRoomData roomV), none, none⟩
    (getRoomData roomV) (by decide) rfl

/-- C2: in every reachable registry state every room's vote keys are a
subset of its member keys, and the room-level invariant is preserved by
every operation (creation, addUser, removeUser, castVote, clearVotes,
revealVotes and the story update performed by the set-story handler). -/
theorem claim2_votes_subset_members (s : ServerState) (hs : Reachable s)
    (p : String × Room) (hp : p ∈ s.rooms) (k : String)
    (hk : mapHas p.2.votes k = true)
    (r : Room) (hr : VotesSubUsers r)
    (sid userName vote story genId roomName : String) :
    mapHas p.2.users k = true
    ∧ VotesSubUsers (Room.create genId roomName)
    ∧ VotesSubUsers (r.addUser sid userName)
    ∧ VotesSubUsers (r.removeUser sid)
    ∧ VotesSubUsers (r.castVote sid vote)
    ∧ VotesSubUsers r.clearVotes
    ∧ VotesSubUsers r.revealVotes
    ∧ VotesSubUsers ({ r with currentStory := story }).clearVotes :=
  ⟨((goodState_reachable hs) p hp).1 k hk,
   votesSub_create genId roomName,
   votesSub_addUser hr sid userName,
   votesSub_removeUser hr sid,
   votesSub_castVote hr sid vote,
   votesSub_clearVotes r,
   votesSub_revealVotes hr,
   votesSub_clearVotes _⟩

/-- C2 witness: instantiated in the reachable state where Alice voted. -/
theorem claim2_witness :
    mapHas roomV.users "s1" = true
    ∧ VotesSubUsers (Room.create "g" "G")
    ∧ VotesSubUsers ((Room.create "x" "y").addUser "u" "U")
    ∧ VotesSubUsers ((Room.create "x" "y").removeUser "u")
    ∧ VotesSubUsers ((Room.create "x" "y").castVote "u" "5")
    ∧ VotesSubUsers (Room.create "x" "y").clearVotes
    ∧ VotesSubUsers (Room.create "x" "y").revealVotes
    ∧ VotesSubUsers ({ Room.create "x" "y" with currentStory := "st" }).clearVotes :=
  claim2_votes_subset_members sVoted reachable_sVoted ("r1", roomV) (by decide)
    "s1" (by decide) (Room.create "x" "y") (votesSub_create "x" "y")
    "u" "U" "5" "st" "g" "G"

/-- C3 counterexample: in the reachable state where Alice's vote `5` is
revealed, a further `cast-vote` (before any clear-votes or set-story)
overwrites the stored vote: the votes map changes from `5` to `8` while
`votingRevealed` stays true, so revealed votes are not frozen. -/
theorem claim3_counterexample :
    Reachable sRevealed
    ∧ (mapGet sRevealed.rooms "r1").map Room.votingRevealed = some true
    ∧ (mapGet sRevealed.rooms "r1").map Room.votes = some [("s1", "5")]
    ∧ (mapGet (step sRevealed (Event.castVote "s1" "8")).rooms "r1").map Room.votes
        = some [("s1", "8")]
    ∧ (mapGet (step sRevealed (Event.castVote "s1" "8")).rooms "r1").map Room.votingRevealed
        = some true :=
  ⟨reachable_sRevealed, by decide, by decide, by decide, by decide⟩

/-- C3 amended: once `votingRevealed` is true the vote values become
visible but are not frozen — `castVote` ignores `votingRevealed`, so a
vote cast by a current non-spectator member between `revealVotes` and
the next `clearVotes` or `setStory` still adds or overwrites an entry of
the votes map, exactly as while collecting. -/
theorem claim3_amended_votes_not_frozen (r : Room) (sid vote : String) (u : User)
    (hu : mapGet r.users sid = some u) (hns : u.isSpectator = false) :
    (r.castVote sid vote).votes = mapSet r.votes sid vote
    ∧ (r.castVote sid vote).votingRevealed = r.votingRevealed := by
  simp only [Room.castVote, hu]
  rw [if_neg (by simp [hns])]
  exact ⟨rfl, rfl⟩

/-- C3 amended witness. -/
theorem claim3_witness :
    ((roomV.revealVotes).castVote "s1" "8").votes
        = mapSet roomV.revealVotes.votes "s1" "8"
    ∧ ((roomV.revealVotes).castVote "s1" "8").votingRevealed
        = roomV.revealVotes.votingRevealed :=
  claim3_amended_votes_not_frozen roomV.revealVotes "s1" "8"
    ⟨"s1", "Alice", false⟩ (by decide) rfl

/-- Registry with two rooms `rA` and `rB`. -/
def sTwoRooms : ServerState :=
  step (step initialState (Event.createRoom "c1" "rA" "Alpha" "Carol"))
    (Event.createRoom "c2" "rB" "Beta" "Dan")

/-- Registry state in which Bob's socket joins `rA`, then also `rB`. -/
def sJoinAB : ServerState :=
  step (step sTwoRooms (Event.joinRoom "s1" "rA" "Bob"))
    (Event.joinRoom "s1" "rB" "Bob")

theorem reachable_sJoinAB : Reachable sJoinAB :=
  Reachable.next _ _ (Reachable.next _ _
    (Reachable.next _ _ (Reachable.next _ _ Reachable.init)))

/-- C4 counterexample: after joining `rA` and then `rB`, the same live
connection `s1` is a member of two distinct existing rooms at once in a
reachable state — the secondary "at most one room per connection" index
property fails. -/
theorem claim4_counterexample :
    Reachable sJoinAB
    ∧ (mapGet sJoinAB.rooms "rA").map (fun r => mapHas r.users "s1") = some true
    ∧ (mapGet sJoinAB.rooms "rB").map (fun r => mapHas r.users "s1") = some true
    ∧ ("rA" : String) ≠ "rB" :=
  ⟨reachable_sJoinAB, by decide, by decide, by decide⟩

/-- C4 amended: a successful join-room adds the connection to the target
room's membership but does not remove it from any other room it already
belongs to, so one connection can be a member of several rooms
simultaneously; event routing still resolves deterministically because
`getUserRoom` returns the first matching room in registry order. -/
theorem claim4_amended_multi_membership (s : ServerState)
    (sid roomId userName : String) (room : Room)
    (hg : mapGet s.rooms roomId = some room)
    (p : String × Room) (hp : p ∈ s.rooms) (hne : p.1 ≠ roomId) :
    mapGet (step s (Event.joinRoom sid roomId userName)).rooms roomId
      = some (room.addUser sid userName)
    ∧ mapHas (room.addUser sid userName).users sid = true
    ∧ p ∈ (step s (Event.joinRoom sid roomId userName)).rooms := by
  simp only [step, stepE, hg]
  exact ⟨mapGet_mapSet_self _ _ _, mapHas_mapSet_self _ _ _,
         mem_mapSet_of_ne hp hne⟩

/-- C4 amended witness: Bob's socket, already in `rA`, joins `rB`. -/
theorem claim4_witness :
    mapGet (step (step sTwoRooms (Event.joinRoom "s1" "rA" "Bob"))
        (Event.joinRoom "s1" "rB" "Bob")).rooms "rB"
      = some ((Room.create "rB" "Beta").addUser "c2" "Dan"
          |>.addUser "s1" "Bob")
    ∧ mapHas ((Room.create "rB" "Beta").addUser "c2" "Dan"
          |>.addUser "s1" "Bob").users "s1" = true
    ∧ ("rA", (Room.create "rA" "Alpha").addUser "c1" "Carol" |>.addUser "s1" "Bob")
        ∈ (step (step sTwoRooms (Event.joinRoom "s1" "rA" "Bob"))
            (Event.joinRoom "s1" "rB" "Bob")).rooms :=
  claim4_amended_multi_membership (step sTwoRooms (Event.joinRoom "s1" "rA" "Bob"))
    "s1" "rB" "Bob" ((Room.create "rB" "Beta").addUser "c2" "Dan")
    (by decide)
    ("rA", (Room.create "rA" "Alpha").addUser "c1" "Carol" |>.addUser "s1" "Bob")
    (by decide) (by decide)

/-- C5 counterexample: the create-room handler performs no collision
check. When the id generator outputs `r1` while room `r1` already exists
in the reachable state `sAlice`, the handler silently replaces Alice's
room and the registry size stays 1 instead of strictly increasing. -/
theorem claim5_counterexample :
    Reachable sAlice
    ∧ (step sAlice (Event.createRoom "c9" "r1" "Other" "Eve")).rooms.length
        = sAlice.rooms.length
    ∧ (mapGet sAlice.rooms "r1").map Room.name = some "Sprint 1"
    ∧ (mapGet (step sAlice (Event.createRoom "c9" "r1" "Other" "Eve")).rooms "r1").map
        Room.name = some "Other" :=
  ⟨reachable_sAlice, by decide, by decide, by decide⟩

/-- C5 amended: create-room registers the new room under the generated
id unconditionally, with no collision check: when the id is fresh the
registry grows by exactly one, but when the generator's output collides
with an existing id the existing room is silently replaced and the
registry size is unchanged. -/
theorem claim5_amended_no_collision_check (s : ServerState)
    (sid genId roomName userName : String) :
    mapGet (step s (Event.createRoom sid genId roomName userName)).rooms genId
      = some ((Room.create genId roomName).addUser sid userName)
    ∧ (mapHas s.rooms genId = false →
        (step s (Event.createRoom sid genId roomName userName)).rooms.length
          = s.rooms.length + 1)
    ∧ (mapHas s.rooms genId = true →
        (step s (Event.createRoom sid genId roomName userName)).rooms.length
          = s.rooms.length) :=
  ⟨mapGet_mapSet_self _ _ _,
   fun h => mapSet_length_of_not_has _ h,
   fun h => mapSet_length_of_has _ h⟩

/-- C5 amended witness: creating `r1` over `sAlice` (collision) and over
the empty registry (fresh). -/
theorem claim5_witness :
    mapGet (step sAlice (Event.createRoom "c9" "r1" "Other" "Eve")).rooms "r1"
      = some ((Room.create "r1" "Other").addUser "c9" "Eve")
    ∧ (mapHas sAlice.rooms "r1" = false →
        (step sAlice (Event.createRoom "c9" "r1" "Other" "Eve")).rooms.length
          = sAlice.rooms.length + 1)
    ∧ (mapHas sAlice.rooms "r1" = true →
        (step sAlice (Event.createRoom "c9" "r1" "Other" "Eve")).rooms.length
          = sAlice.rooms.length) :=
  claim5_amended_no_collision_check sAlice "c9" "r1" "Other" "Eve"

/-- C6: a join-room request whose room id is absent from the registry
leaves the state completely unchanged and emits exactly one event — an
`error` with message "Room not found" to the joining socket only —
and moreover `error` events arise from no other handler: every `error`
emission comes from a join with an unknown id and targets the joiner. -/
theorem claim6_room_not_found (s : ServerState) (sid roomId userName : String)
    (h : mapGet s.rooms roomId = none)
    (s2 : ServerState) (e : Event) (em : Emission)
    (hm : em ∈ (stepE s2 e).2) (he : em.event = "error") :
    (stepE s (Event.joinRoom sid roomId userName)).1 = s
    ∧ (stepE s (Event.joinRoom sid roomId userName)).2
        = [⟨Target.socket sid, "error", none, some "Room not found", none⟩]
    ∧ em.message = some "Room not found"
    ∧ (∃ sid2 rid un, e = Event.joinRoom sid2 rid un ∧ mapGet s2.rooms rid = none
        ∧ em.target = Target.socket sid2) := by
  have h2 := stepE_error_events hm he
  refine ⟨?_, ?_, h2.1, h2.2⟩
  · simp only [stepE, h]
  · simp only [stepE, h]

/-- C6 witness: joining the unknown id `nope` on the state where only
`r1` exists. -/
theorem claim6_witness :
    (stepE sAlice (Event.joinRoom "s2" "nope" "Bob")).1 = sAlice
    ∧ (stepE sAlice (Event.joinRoom "s2" "nope" "Bob")).2
        = [⟨Target.socket "s2", "error", none, some "Room not found", none⟩]
    ∧ Emission.message ⟨Target.socket "s2", "error", none, some "Room not found", none⟩
        = some "Room not found"
    ∧ (∃ sid2 rid un,
        Event.joinRoom "s2" "nope" "Bob" = Event.joinRoom sid2 rid un
        ∧ mapGet sAlice.rooms rid = none
        ∧ Emission.target ⟨Target.socket "s2", "error", none, some "Room not found", none⟩
            = Target.socket sid2) :=
  claim6_room_not_found sAlice "s2" "nope" "Bob" (by decide)
    sAlice (Event.joinRoom "s2" "nope" "Bob")
    ⟨Target.socket "s2", "error", none, some "Room not found", none⟩
    (by decide) rfl

/-- Room with votes 3, 5, 8, ? — the worked statistics example. -/
def rStats : Room :=
  ⟨"r9", "Stats", [("a", ⟨"a", "A", false⟩), ("b", ⟨"b", "B", false⟩),
    ("c", ⟨"c", "C", false⟩), ("d", ⟨"d", "D", false⟩)], "story",
   [("a", "3"), ("b", "5"), ("c", "8"), ("d", "?")], false⟩

/-- Room whose votes are all sentinel tokens. -/
def rSent : Room :=
  ⟨"r8", "Sent", [("a", ⟨"a", "A", false⟩), ("b", ⟨"b", "B", false⟩)], "story",
   [("a", "?"), ("b", "☕")], false⟩

theorem rStats_stats_eval :
    rStats.getVotingStats = some ⟨53 / 10, 5, 3, 8, 4⟩ := by
  have h : rStats.numericVotes = [3, 5, 8] := by decide
  have hv : rStats.votes.length = 4 := by decide
  rw [Room.getVotingStats, h, hv]
  norm_num [meanQ, medianQ, sortInts, List.insertionSort, List.orderedInsert,
    mathRound, listMin, listMax]

/-- C7: `getVotingStats` discards the two sentinel tokens and every
token `parseInt` fails on; it returns nothing iff no numeric votes
remain; otherwise the average is the mean rounded to one decimal place
(within 1/20 of the exact mean), the median is the standard
sorted-middle value over the sorted numeric votes, min and max are
attained members bounding every numeric vote, and totalVotes counts all
votes cast including non-numeric tokens. Votes 3, 5, 8, ? yield average
5.3, median 5, min 3, max 8, totalVotes 4. -/
theorem claim7_voting_stats (r r0 : Room) (st : VotingStats)
    (hs : r.getVotingStats = some st) (h0 : r0.numericVotes = [])
    (x : Int) (hx : x ∈ r.numericVotes) :
    r.numericVotes ≠ []
    ∧ r0.getVotingStats = none
    ∧ st.average = (mathRound (meanQ r.numericVotes * 10) : ℚ) / 10
    ∧ |st.average - meanQ r.numericVotes| ≤ 1 / 20
    ∧ st.median = specMedian r.numericVotes
    ∧ List.Sorted (fun a b => a ≤ b) (sortInts r.numericVotes)
    ∧ List.Perm (sortInts r.numericVotes) r.numericVotes
    ∧ st.min ∈ r.numericVotes
    ∧ st.max ∈ r.numericVotes
    ∧ st.min ≤ x
    ∧ x ≤ st.max
    ∧ st.totalVotes = r.votes.length
    ∧ rStats.getVotingStats = some ⟨53 / 10, 5, 3, 8, 4⟩ := by
  have hne : r.numericVotes ≠ [] := by
    intro hnil
    rw [Room.getVotingStats, if_pos (by rw [hnil]; rfl)] at hs
    exact Option.noConfusion hs
  have hlen : ¬ r.numericVotes.length = 0 := fun hh => hne (List.length_eq_zero.mp hh)
  rw [Room.getVotingStats, if_neg hlen] at hs
  have hst := Option.some.inj hs
  subst hst
  refine ⟨hne, ?_, rfl, rounded_mean_close r.numericVotes,
    medianQ_eq_specMedian r.numericVotes,
    sortInts_sorted r.numericVotes, sortInts_perm r.numericVotes,
    listMin_mem hne, listMax_mem hne, listMin_le x hx, le_listMax x hx,
    rfl, rStats_stats_eval⟩
  rw [Room.getVotingStats, if_pos (by rw [h0]; rfl)]

/-- C7 witness: the worked example 3, 5, 8, ? together with the
all-sentinel room. -/
theorem claim7_witness :
    rStats.numericVotes ≠ []
    ∧ rSent.getVotingStats = none
    ∧ (⟨53 / 10, 5, 3, 8, 4⟩ : VotingStats).average
        = (mathRound (meanQ rStats.numericVotes * 10) : ℚ) / 10
    ∧ |(⟨53 / 10, 5, 3, 8, 4⟩ : VotingStats).average - meanQ rStats.numericVotes| ≤ 1 / 20
    ∧ (⟨53 / 10, 5, 3, 8, 4⟩ : VotingStats).median = specMedian rStats.numericVotes
    ∧ List.Sorted (fun a b => a ≤ b) (sortInts rStats.numericVotes)
    ∧ List.Perm (sortInts rStats.numericVotes) rStats.numericVotes
    ∧ (⟨53 / 10, 5, 3, 8, 4⟩ : VotingStats).min ∈ rStats.numericVotes
    ∧ (⟨53 / 10, 5, 3, 8, 4⟩ : VotingStats).max ∈ rStats.numericVotes
    ∧ (⟨53 / 10, 5, 3, 8, 4⟩ : VotingStats).min ≤ 5
    ∧ (5 : Int) ≤ (⟨53 / 10, 5, 3, 8, 4⟩ : VotingStats).max
    ∧ (⟨53 / 10, 5, 3, 8, 4⟩ : VotingStats).totalVotes = rStats.votes.length
    ∧ rStats.getVotingStats = some ⟨53 / 10, 5, 3, 8, 4⟩ :=
  claim7_voting_stats rStats rSent ⟨53 / 10, 5, 3, 8, 4⟩
    rStats_stats_eval (by decide) 5 (by decide)

/-- C8: for every prior room state and story text, the set-story handler
stores the new story, empties the votes map and resets
`votingRevealed` to false; reading `currentStory` immediately afterwards
returns the new story. -/
theorem claim8_set_story (s : ServerState) (sid story : String) (room : Room)
    (h : getUserRoom s sid = some room) :
    mapGet (step s (Event.setStory sid story)).rooms room.id
      = some { room with currentStory := story, votes := [], votingRevealed := false }
    ∧ ({ room with currentStory := story, votes := [], votingRevealed := false }).currentStory
        = story := by
  constructor
  · simp only [step, stepE, h]
    exact mapGet_mapSet_self _ _ _
  · rfl

/-- The room stored in `sRevealed` after the story is replaced. -/
def roomV2 : Room :=
  ⟨"r1", "Sprint 1", [("s1", ⟨"s1", "Alice", false⟩)], "next story", [], false⟩

/-- C8 witness: setting a story on the revealed room with a recorded
vote clears the vote and the reveal flag. -/
theorem claim8_witness :
    mapGet (step sRevealed (Event.setStory "s1" "next story")).rooms "r1" = some roomV2
    ∧ roomV2.currentStory = "next story" :=
  claim8_set_story sRevealed "s1" "next story" roomV.revealVotes (by decide)

/-- C9 counterexample: `castVote` stores whatever token the client sent.
In a reachable state Alice's recorded vote is the string `banana`, which
is not one of the fixed card deck values. -/
theorem claim9_counterexample :
    Reachable sBanana
    ∧ (mapGet sBanana.rooms "r1").map Room.votes = some [("s1", "banana")]
    ∧ "banana" ∉ cardValues :=
  ⟨reachable_sBanana, by decide, by decide⟩

/-- C9 amended: `castVote` performs no validation against the card deck:
any token sent by a current non-spectator member is stored verbatim in
the votes map, whether or not it belongs to `cardValues`; the deck only
constrains the client-side UI. -/
theorem claim9_amended_no_token_validation (r : Room) (sid vote : String) (u : User)
    (hu : mapGet r.users sid = some u) (hns : u.isSpectator = false) :
    mapGet (r.castVote sid vote).votes sid = some vote := by
  simp only [Room.castVote, hu]
  rw [if_neg (by simp [hns])]
  exact mapGet_mapSet_self _ _ _

/-- C9 amended witness: the token `banana` is stored verbatim. -/
theorem claim9_witness :
    mapGet (roomV.castVote "s1" "banana").votes "s1" = some "banana" :=
  claim9_amended_no_token_validation roomV "s1" "banana"
    ⟨"s1", "Alice", false⟩ rfl rfl

/-- C10: in every reachable state every member of every room has
`isSpectator = false` — `addUser` always registers non-spectators and
nothing ever sets the flag — so the spectator-rejection branch of
`castVote` never fires and a vote from any current member is always
recorded. -/
theorem claim10_no_spectators (s : ServerState) (hs : Reachable s)
    (p : String × Room) (hp : p ∈ s.rooms) (k vote : String) (u : User)
    (hu : mapGet p.2.users k = some u) :
    u.isSpectator = false
    ∧ (p.2.castVote k vote).votes = mapSet p.2.votes k vote := by
  have hg := goodState_reachable hs p hp
  have hns : u.isSpectator = false := hg.2 (k, u) (mapGet_some_mem hu)
  refine ⟨hns, ?_⟩
  simp only [Room.castVote, hu]
  rw [if_neg (by simp [hns])]

/-- C10 witness: Alice in the reachable state `sVoted`. -/
theorem claim10_witness :
    User.isSpectator ⟨"s1", "Alice", false⟩ = false
    ∧ (roomV.castVote "s1" "8").votes = mapSet roomV.votes "s1" "8" :=
  claim10_no_spectators sVoted reachable_sVoted ("r1", roomV) (by decide)
    "s1" "8" ⟨"s1", "Alice", false⟩ (by decide)
